import Mathlib

/-!
Verification development for the `icdcoder` repository
(`Utilities.py`: classes `Trainer` and `KFoldCrossVal`; `baseline_coder.py`:
the baseline command-line entry point).

The Python code is shallowly embedded:

* Python `int` is modelled as `Int` (with `Int.fmod` / `Int.fdiv` for
  Python's `%` / `//`, which round toward negative infinity exactly like
  Python), and nonnegative counts as `Nat` where only nonnegative values
  can flow in.
* Python floats (losses, metrics) are modelled as `ℚ`; `np.inf` becomes
  `⊤ : WithTop ℚ`.
* Code that can raise is modelled in `Except Unit`.
* The opaque deep-learning objects (model weights, optimizer state) are an
  abstract type `α`; one epoch of batch-level training is an abstract
  function `step : α → α`, and the average validation loss computed for the
  model at the end of an epoch is an abstract function `valLoss : α → ℚ`.
-/

namespace ICD

instance {ε α : Type} [DecidableEq ε] [DecidableEq α] : DecidableEq (Except ε α) := fun x y =>
  match x, y with
  | .error a, .error b =>
      if h : a = b then .isTrue (by rw [h]) else .isFalse (by simp [h])
  | .ok a, .ok b =>
      if h : a = b then .isTrue (by rw [h]) else .isFalse (by simp [h])
  | .error _, .ok _ => .isFalse (fun h => Except.noConfusion h)
  | .ok _, .error _ => .isFalse (fun h => Except.noConfusion h)

/-! ### Batch-level gradient accumulation (`Utilities.py`, lines 62-72)

Inside the batch loop of `Trainer.train`, the update block

    if b % (gradient_accumulation - 1) == 0 and b != 0:
        torch.nn.utils.clip_grad_norm_(...)
        self.optim.step()
        self.model.zero_grad()
        scheduler.step()

runs the gradient clipping, the optimizer step, the gradient zeroing and
the scheduler step together whenever the guard holds.  Python evaluates
`b % (gradient_accumulation - 1)` first and raises `ZeroDivisionError`
when `gradient_accumulation - 1 == 0`. -/

/-- Default value of the `gradient_accumulation` parameter of
`Trainer.train` (`Utilities.py`, line 40). -/
def Trainer.gradient_accumulation_default : Int := 1

/-- The guard of the update block on line 68 of `Utilities.py`:
`b % (gradient_accumulation - 1) == 0 and b != 0`, for batch index `b`
(0-based).  Evaluates to `Except.error ()` (a `ZeroDivisionError`) when
`gradient_accumulation - 1 = 0`; `Int.fmod` is Python's `%`. -/
def Trainer.gradUpdateCond (gradient_accumulation : Int) (b : Nat) : Except Unit Bool :=
  if gradient_accumulation - 1 = 0 then Except.error ()
  else Except.ok (decide (Int.fmod (b : Int) (gradient_accumulation - 1) = 0) && decide (b ≠ 0))

/-- Runs the guard of the update block over the batches `0, 1, ..., n-1` of
one epoch (the loop on line 62 of `Utilities.py`) and collects the batch
indices at which the update block (clip / `optim.step` / `zero_grad` /
`scheduler.step`) executes; propagates a `ZeroDivisionError` raised by the
guard, as the uncaught Python exception would abort the epoch. -/
def Trainer.epochUpdateIndices (gradient_accumulation : Int) (n : Nat) :
    Except Unit (List Nat) :=
  (List.range n).foldlM
    (fun acc b => do
      let c ← Trainer.gradUpdateCond gradient_accumulation b
      pure (if c then acc ++ [b] else acc))
    []

/-- The batch indices at which the spec's claim C1 says the update block
runs: after batches `g, 2g, 3g, ...` in 1-based counting, i.e. at 0-based
indices `b` with `(b+1) % g = 0`. -/
def claimedUpdateIndices (g n : Nat) : List Nat :=
  (List.range n).filter (fun b => (b + 1) % g = 0)

/-- Auxiliary: a fold in `Except` whose body never fails and appends exactly
the elements satisfying `p` computes the filter of the traversed list. -/
theorem foldlM_collect (F : List Nat → Nat → Except Unit (List Nat)) (p : Nat → Bool)
    (hF : ∀ acc b, F acc b = Except.ok (if p b then acc ++ [b] else acc)) :
    ∀ (l : List Nat) (acc : List Nat),
      l.foldlM F acc = Except.ok (acc ++ l.filter p) := by
  intro l
  induction l with
  | nil =>
      intro acc
      simp only [List.foldlM_nil, List.filter_nil, List.append_nil]
      rfl
  | cons a l ih =>
      intro acc
      rw [List.foldlM_cons, hF]
      show l.foldlM F (if p a then acc ++ [a] else acc) = _
      rw [ih, List.filter_cons]
      by_cases h : p a <;> simp [h]

/-- For `gradient_accumulation ≥ 2`, the guard never raises and evaluates
exactly the source condition. -/
theorem gradUpdateCond_eq (g : Int) (hg : 2 ≤ g) (b : Nat) :
    Trainer.gradUpdateCond g b =
      Except.ok (decide (Int.fmod (b : Int) (g - 1) = 0) && decide (b ≠ 0)) := by
  unfold Trainer.gradUpdateCond
  rw [if_neg]
  omega

/-- C1, counterexample.  With `gradient_accumulation = 2` and three batches
in the epoch, the update block runs after the second AND the third batch
(0-based batch indices 1 and 2), whereas the claim says it runs once per 2
batches, i.e. only after the second batch (0-based index 1). -/
theorem C1_counterexample :
    Trainer.epochUpdateIndices 2 3 = Except.ok [1, 2] ∧
    claimedUpdateIndices 2 3 = [1] ∧
    Trainer.epochUpdateIndices 2 3 ≠ Except.ok (claimedUpdateIndices 2 3) := by
  decide

/-- C1, amended.  For every call to `Trainer.train` with
`gradient_accumulation = g ≥ 2`, the update block (gradient clipping,
optimizer step, gradient zeroing, scheduler step) inside the batch loop runs
exactly at the 0-based batch indices `b` with `b % (g - 1) = 0` and `b ≠ 0`,
that is, exactly at the positive multiples of `g - 1`: the first update
happens after `g` batches have been accumulated, and each later update after
only `g - 1` further batches — not once per `g` batches. -/
theorem C1_update_pattern (g : Int) (hg : 2 ≤ g) (n : Nat) :
    Trainer.epochUpdateIndices g n =
      Except.ok ((List.range n).filter
        (fun b : Nat => decide (Int.fmod (b : Int) (g - 1) = 0) && decide (b ≠ 0))) ∧
    ∀ b : Nat, Trainer.gradUpdateCond g b = Except.ok true ↔
      ∃ m : Nat, 1 ≤ m ∧ (b : Int) = (m : Int) * (g - 1) := by
  constructor
  · have h := foldlM_collect
      (fun acc b => do
        let c ← Trainer.gradUpdateCond g b
        pure (if c then acc ++ [b] else acc))
      (fun b : Nat => decide (Int.fmod (b : Int) (g - 1) = 0) && decide (b ≠ 0))
      (fun acc b => by simp only [gradUpdateCond_eq g hg]; rfl)
      (List.range n) []
    unfold Trainer.epochUpdateIndices
    rw [h, List.nil_append]
  · intro b
    rw [gradUpdateCond_eq g hg b]
    simp only [Except.ok.injEq, Bool.and_eq_true, decide_eq_true_eq]
    rw [Int.fmod_eq_emod _ (by omega : (0 : Int) ≤ g - 1)]
    constructor
    · rintro ⟨hmod, hb⟩
      obtain ⟨c, hc⟩ := Int.dvd_of_emod_eq_zero hmod
      have hb' : (0 : Int) ≤ (b : Int) := Int.ofNat_nonneg b
      have hc0 : 0 ≤ c := by nlinarith
      have hcne : c ≠ 0 := by
        intro h
        apply hb
        have : (b : Int) = 0 := by rw [hc, h, mul_zero]
        exact_mod_cast this
      refine ⟨c.toNat, by omega, ?_⟩
      rw [Int.toNat_of_nonneg hc0, hc, mul_comm]
    · rintro ⟨m, hm, he⟩
      have hm' : (1 : Int) ≤ (m : Int) := by exact_mod_cast hm
      constructor
      · exact Int.emod_eq_zero_of_dvd ⟨(m : Int), by rw [he]; ring⟩
      · intro h
        rw [h] at he
        simp only [Nat.cast_zero] at he
        nlinarith

/-- Witness for `C1_update_pattern` at `gradient_accumulation = 3` over an
epoch of 7 batches, and at batch index 4. -/
theorem C1_update_pattern_witness :
    (Trainer.epochUpdateIndices 3 7 =
      Except.ok ((List.range 7).filter
        (fun b : Nat => decide (Int.fmod (b : Int) (3 - 1) = 0) && decide (b ≠ 0)))) ∧
    (Trainer.gradUpdateCond 3 4 = Except.ok true ↔
      ∃ m : Nat, 1 ≤ m ∧ ((4 : Nat) : Int) = (m : Int) * (3 - 1)) :=
  ⟨(C1_update_pattern 3 (by norm_num) 7).1, (C1_update_pattern 3 (by norm_num) 7).2 4⟩

/-- C2: with the default `gradient_accumulation = 1` (line 40 of
`Utilities.py`) and at least one training batch, the guard
`b % (gradient_accumulation - 1) == 0` divides by zero: it raises on the
very first batch (index 0), and processing the epoch's batches propagates
the `ZeroDivisionError`, so no epoch completes. -/
theorem C2_default_grad_accum_div_zero (n : Nat) (h : 1 ≤ n) :
    Trainer.gradient_accumulation_default = 1 ∧
    Trainer.gradUpdateCond Trainer.gradient_accumulation_default 0 = Except.error () ∧
    Trainer.epochUpdateIndices Trainer.gradient_accumulation_default n = Except.error () := by
  refine ⟨rfl, rfl, ?_⟩
  obtain ⟨m, rfl⟩ : ∃ m, n = m + 1 := ⟨n - 1, by omega⟩
  rw [Trainer.epochUpdateIndices, List.range_succ_eq_map, List.foldlM_cons]
  rfl

/-- Witness for `C2_default_grad_accum_div_zero` with a single batch. -/
theorem C2_default_grad_accum_div_zero_witness :
    Trainer.gradient_accumulation_default = 1 ∧
    Trainer.gradUpdateCond Trainer.gradient_accumulation_default 0 = Except.error () ∧
    Trainer.epochUpdateIndices Trainer.gradient_accumulation_default 1 = Except.error () :=
  C2_default_grad_accum_div_zero 1 (by norm_num)

/-! ### Epoch-level training loop (`Utilities.py`, lines 40-160)

The epoch loop of `Trainer.train` is embedded with the opaque
deep-learning state abstracted: `α` is the type of model states, `step`
is the net effect of one epoch of batch-level training on the model
(lines 59-83, including the trailing `optim.step()` / `zero_grad()`), and
`valLoss m` is the average validation loss `np.average(batch_loss_history)`
computed for model `m` in the validation block (lines 91-117).  Losses are
`ℚ`; the initial `old_loss = np.inf` (line 54) is `⊤ : WithTop ℚ`.

`X_val` being passed (and non-empty, hence truthy) is the flag `hasVal`.
The mutable locals of the source loop are the fields of `TState`; `done`
counts completed epochs, and `broke` records whether the `break` on
line 131 executed.  `loss_epoch = 0` / `model_best_loss = none` encode the
Python locals being still unbound (Python would raise `NameError` if they
were read before any epoch ran). -/

structure TState (α : Type) where
  model : α
  old_loss : WithTop ℚ
  model_best_loss : Option α
  loss_epoch : Nat
  epoch_patience_count : Nat
  done : Nat
  broke : Bool

/-- The local state at the top of `Trainer.train`'s epoch loop
(lines 54-56 of `Utilities.py`). -/
def Trainer.initTState {α : Type} (m0 : α) : TState α :=
  { model := m0, old_loss := ⊤, model_best_loss := none, loss_epoch := 0,
    epoch_patience_count := 0, done := 0, broke := false }

/-- The epoch loop `for epoch in range(epochs)` of `Trainer.train`
(lines 57-134 of `Utilities.py`), by recursion on the remaining epochs.
Each epoch trains the model (`step`); if a validation set exists, the
patience counter is incremented, then decremented again when the average
validation loss strictly improves on `old_loss` (in which case the best
model, its epoch number and the new best loss are recorded), and with
`early_stopping` the loop breaks as soon as `patience ==
epoch_patience_count` (lines 113-131). -/
def Trainer.trainLoop {α : Type} (step : α → α) (valLoss : α → ℚ)
    (hasVal early_stopping : Bool) (patience : Nat) :
    Nat → TState α → TState α
  | 0, s => s
  | k + 1, s =>
    let m := step s.model
    if hasVal then
      let avg := valLoss m
      let s' : TState α :=
        if (avg : WithTop ℚ) < s.old_loss then
          { s with model := m, done := s.done + 1, old_loss := (avg : WithTop ℚ),
                   model_best_loss := some m, loss_epoch := s.done + 1 }
        else
          { s with model := m, done := s.done + 1,
                   epoch_patience_count := s.epoch_patience_count + 1 }
      if early_stopping = true ∧ patience = s'.epoch_patience_count then
        { s' with broke := true }
      else
        Trainer.trainLoop step valLoss hasVal early_stopping patience k s'
    else
      Trainer.trainLoop step valLoss hasVal early_stopping patience k
        { s with model := m, done := s.done + 1 }

/-- The scheduler configuration built by `Trainer.get_scheduler`
(`Utilities.py`, lines 188-193): it hands `warm_up` to the library call as
`num_warmup_steps` and `steps` as `num_training_steps`. -/
structure SchedulerConfig where
  num_warmup_steps : Int
  num_training_steps : Int

def Trainer.get_scheduler (steps : Int) (warm_up : Int) : SchedulerConfig :=
  { num_warmup_steps := warm_up, num_training_steps := steps }

/-- `len(dataLoader)` for a `DataLoader` over `nSamples` samples with the
given `batch_size` (`torch` default `drop_last=False`, so the count is
`⌈nSamples / batch_size⌉`). -/
def Trainer.numBatches (nSamples batch_size : Nat) : Nat :=
  (nSamples + batch_size - 1) / batch_size

/-- The observable outcome of one call to `Trainer.train`: the final
`self.model` (`none` encodes Python `None`), the scheduler configuration
created on line 53, the weights file written by `torch.save` together with
its path (lines 136-148), and the loop outcome. -/
structure TrainResult (α : Type) where
  model : Option α
  sched : SchedulerConfig
  saved : Option (String × Option α)
  loss_epoch : Nat
  done : Nat
  broke : Bool

/-- `Trainer.train` (`Utilities.py`, lines 40-160) at the epoch level:
creates the scheduler with `steps = (len(dataLoader) //
gradient_accumulation) * epochs` (line 53, `Int.fdiv` is Python `//`),
runs the epoch loop, then saves and selects the returned model
(lines 136-160).  With a validation set the best-loss model is saved to
`best_loss_model_epoch_{loss_epoch}.bin`; without one the current model is
saved to `model_epoch_{epochs}.bin`; `return_best_model` replaces
`self.model` by `model_best_loss` only when a validation set exists. -/
def Trainer.train {α : Type} (step : α → α) (valLoss : α → ℚ)
    (hasVal early_stopping return_best_model save_model : Bool)
    (patience epochs nSamples batch_size : Nat)
    (gradient_accumulation warm_up : Int) (save_path : String) (m0 : α) :
    TrainResult α :=
  let sched := Trainer.get_scheduler
    ((Int.fdiv (Trainer.numBatches nSamples batch_size : Int) gradient_accumulation)
      * (epochs : Int)) warm_up
  let res := Trainer.trainLoop step valLoss hasVal early_stopping patience epochs
    (Trainer.initTState m0)
  { model := if return_best_model = true ∧ hasVal = true then res.model_best_loss
             else some res.model
    sched := sched
    saved :=
      if hasVal then
        if save_model then
          some (save_path ++ "/best_loss_model_epoch_" ++ toString res.loss_epoch ++ ".bin",
                res.model_best_loss)
        else none
      else
        if save_model then
          some (save_path ++ "/model_epoch_" ++ toString epochs ++ ".bin", some res.model)
        else none
    loss_epoch := res.loss_epoch
    done := res.done
    broke := res.broke }

/-! ### Specification-side view of the epoch loop

`lossSeq step valLoss m0 i` is the average validation loss reported at the
end of epoch `i+1` (0-based `i`).  `runMin` is the best loss seen so far,
`improvedAt` says whether epoch `i+1` strictly improved it, `badCount e`
counts the non-improving epochs among the first `e`, and `bestIdx e` is the
0-based index of the last improving epoch among the first `e`. -/

def lossSeq {α : Type} (step : α → α) (valLoss : α → ℚ) (m0 : α) : Nat → ℚ :=
  fun i => valLoss (step^[i + 1] m0)

def runMin (L : Nat → ℚ) : Nat → WithTop ℚ
  | 0 => ⊤
  | e + 1 => min (runMin L e) (L e)

def improvedAt (L : Nat → ℚ) (e : Nat) : Bool :=
  decide ((L e : WithTop ℚ) < runMin L e)

def badCount (L : Nat → ℚ) : Nat → Nat
  | 0 => 0
  | e + 1 => badCount L e + (if improvedAt L e then 0 else 1)

def bestIdx (L : Nat → ℚ) : Nat → Nat
  | 0 => 0
  | e + 1 => if improvedAt L e then e else bestIdx L e

/-- Number of epochs the loop still executes, starting after `e` completed
epochs with `k` planned epochs remaining. -/
def runLen (L : Nat → ℚ) (es : Bool) (patience : Nat) : Nat → Nat → Nat
  | 0, _ => 0
  | k + 1, e =>
      if es = true ∧ patience = badCount L (e + 1) then 1
      else 1 + runLen L es patience k (e + 1)

/-- Whether the loop executes the `break` on line 131, starting after `e`
completed epochs with `k` planned epochs remaining. -/
def didBreak (L : Nat → ℚ) (es : Bool) (patience : Nat) : Nat → Nat → Bool
  | 0, _ => false
  | k + 1, e =>
      if es = true ∧ patience = badCount L (e + 1) then true
      else didBreak L es patience k (e + 1)

/-- The canonical loop state after `e` completed epochs (no break yet). -/
def mkState {α : Type} (step : α → α) (valLoss : α → ℚ) (m0 : α) (e : Nat) : TState α :=
  { model := step^[e] m0
    old_loss := runMin (lossSeq step valLoss m0) e
    model_best_loss :=
      if e = 0 then none else some (step^[bestIdx (lossSeq step valLoss m0) e + 1] m0)
    loss_epoch := if e = 0 then 0 else bestIdx (lossSeq step valLoss m0) e + 1
    epoch_patience_count := badCount (lossSeq step valLoss m0) e
    done := e
    broke := false }

theorem improvedAt_zero (L : Nat → ℚ) : improvedAt L 0 = true := by
  simp [improvedAt, runMin]

theorem runMin_succ_improved (L : Nat → ℚ) (e : Nat) (h : improvedAt L e = true) :
    runMin L (e + 1) = (L e : WithTop ℚ) := by
  have h' : (L e : WithTop ℚ) < runMin L e := by simpa [improvedAt] using h
  simp only [runMin]
  exact min_eq_right h'.le

theorem runMin_succ_not_improved (L : Nat → ℚ) (e : Nat) (h : improvedAt L e = false) :
    runMin L (e + 1) = runMin L e := by
  have h' : ¬ (L e : WithTop ℚ) < runMin L e := by simpa [improvedAt] using h
  simp only [runMin]
  exact min_eq_left (not_lt.mp h')

theorem mkState_zero {α : Type} (step : α → α) (valLoss : α → ℚ) (m0 : α) :
    mkState step valLoss m0 0 = Trainer.initTState m0 := rfl

/-- The epoch loop with no validation set: every epoch just trains, nothing
breaks (the whole `if X_val` block of lines 91-131 is skipped). -/
theorem trainLoop_noval {α : Type} (step : α → α) (valLoss : α → ℚ)
    (es : Bool) (patience : Nat) :
    ∀ (k : Nat) (s : TState α),
      Trainer.trainLoop step valLoss false es patience k s =
        { s with model := step^[k] s.model, done := s.done + k } := by
  intro k
  induction k with
  | zero => intro s; rfl
  | succ k ih =>
      intro s
      show Trainer.trainLoop step valLoss false es patience k
        { s with model := step s.model, done := s.done + 1 } = _
      rw [ih]
      simp only [Function.iterate_succ_apply]
      congr 1
      omega

/-- One iteration of the epoch loop with a validation set, read off the
canonical state: epoch `e+1` is trained and evaluated, and the loop either
breaks (when `patience` equals the updated counter) or continues from the
canonical state after `e+1` epochs. -/
theorem trainLoop_val_step {α : Type} (step : α → α) (valLoss : α → ℚ)
    (es : Bool) (patience : Nat) (m0 : α) (k e : Nat) :
    Trainer.trainLoop step valLoss true es patience (k + 1) (mkState step valLoss m0 e) =
      (if es = true ∧ patience = badCount (lossSeq step valLoss m0) (e + 1) then
        { mkState step valLoss m0 (e + 1) with broke := true }
      else
        Trainer.trainLoop step valLoss true es patience k (mkState step valLoss m0 (e + 1))) := by
  have hval : valLoss (step (step^[e] m0)) = lossSeq step valLoss m0 e := by
    simp only [lossSeq]
    rw [Function.iterate_succ_apply']
  have hC :
      (if ((valLoss (step ((mkState step valLoss m0 e).model)) : ℚ) : WithTop ℚ) <
          (mkState step valLoss m0 e).old_loss then
        { mkState step valLoss m0 e with
            model := step ((mkState step valLoss m0 e).model),
            done := (mkState step valLoss m0 e).done + 1,
            old_loss := ((valLoss (step ((mkState step valLoss m0 e).model)) : ℚ) : WithTop ℚ),
            model_best_loss := some (step ((mkState step valLoss m0 e).model)),
            loss_epoch := (mkState step valLoss m0 e).done + 1 }
      else
        { mkState step valLoss m0 e with
            model := step ((mkState step valLoss m0 e).model),
            done := (mkState step valLoss m0 e).done + 1,
            epoch_patience_count := (mkState step valLoss m0 e).epoch_patience_count + 1 }) =
      mkState step valLoss m0 (e + 1) := by
    simp only [mkState]
    rw [hval, ← Function.iterate_succ_apply' step e m0]
    by_cases himp : improvedAt (lossSeq step valLoss m0) e = true
    · have hlt : ((lossSeq step valLoss m0 e : ℚ) : WithTop ℚ) <
          runMin (lossSeq step valLoss m0) e := by
        simpa [improvedAt] using himp
      rw [if_pos hlt]
      have h1 := runMin_succ_improved (lossSeq step valLoss m0) e himp
      simp [mkState, bestIdx, badCount, himp, h1]
    · have hf : improvedAt (lossSeq step valLoss m0) e = false :=
        Bool.not_eq_true _ ▸ eq_false_of_ne_true himp
      have hnl : ¬ ((lossSeq step valLoss m0 e : ℚ) : WithTop ℚ) <
          runMin (lossSeq step valLoss m0) e := by
        simpa [improvedAt] using hf
      rw [if_neg hnl]
      have he : e ≠ 0 := by
        intro h0
        subst h0
        rw [improvedAt_zero] at hf
        simp at hf
      have h1 := runMin_succ_not_improved (lossSeq step valLoss m0) e hf
      simp [mkState, bestIdx, badCount, himp, hf, h1, he]
  simp only [Trainer.trainLoop]
  rw [if_pos trivial]
  dsimp only at hC ⊢
  rw [hC]
  simp only [mkState]

/-- Closed form of the epoch loop with a validation set: starting from the
canonical state after `e` epochs with `k` epochs remaining, the loop runs
for `runLen` more epochs and reports whether it broke. -/
theorem trainLoop_val {α : Type} (step : α → α) (valLoss : α → ℚ) (es : Bool)
    (patience : Nat) (m0 : α) :
    ∀ (k e : Nat),
      Trainer.trainLoop step valLoss true es patience k (mkState step valLoss m0 e) =
        { mkState step valLoss m0
            (e + runLen (lossSeq step valLoss m0) es patience k e) with
          broke := didBreak (lossSeq step valLoss m0) es patience k e } := by
  intro k
  induction k with
  | zero => intro e; rfl
  | succ k ih =>
      intro e
      rw [trainLoop_val_step]
      by_cases hbr : es = true ∧ patience = badCount (lossSeq step valLoss m0) (e + 1)
      · rw [if_pos hbr]
        simp only [runLen, didBreak, if_pos hbr]
      · rw [if_neg hbr, ih (e + 1)]
        simp only [runLen, didBreak, if_neg hbr]
        have h : e + (1 + runLen (lossSeq step valLoss m0) es patience k (e + 1)) =
            (e + 1) + runLen (lossSeq step valLoss m0) es patience k (e + 1) := by omega
        rw [h]

/-- With `early_stopping` on, the loop breaks iff the cumulative count of
non-improving epochs reaches `patience` within the planned epochs. -/
theorem didBreak_iff (L : Nat → ℚ) (patience : Nat) :
    ∀ (k e : Nat), didBreak L true patience k e = true ↔
      ∃ j, e < j ∧ j ≤ e + k ∧ badCount L j = patience := by
  intro k
  induction k with
  | zero =>
      intro e
      simp only [didBreak]
      constructor
      · intro h; exact absurd h (by simp)
      · rintro ⟨j, h1, h2, _⟩; omega
  | succ k ih =>
      intro e
      simp only [didBreak, true_and]
      by_cases h : patience = badCount L (e + 1)
      · rw [if_pos h]
        exact iff_of_true rfl ⟨e + 1, by omega, by omega, h.symm⟩
      · rw [if_neg h, ih (e + 1)]
        have hne : badCount L (e + 1) ≠ patience := fun hp => h hp.symm
        constructor
        · rintro ⟨j, h1, h2, h3⟩; exact ⟨j, by omega, by omega, h3⟩
        · rintro ⟨j, h1, h2, h3⟩
          by_cases hj : j = e + 1
          · subst hj; exact absurd h3 hne
          · exact ⟨j, by omega, by omega, h3⟩

/-- When the loop breaks, it does so at the first epoch whose cumulative
count of non-improving epochs equals `patience`. -/
theorem didBreak_first (L : Nat → ℚ) (patience : Nat) :
    ∀ (k e : Nat), didBreak L true patience k e = true →
      badCount L (e + runLen L true patience k e) = patience ∧
      ∀ j, e < j → j < e + runLen L true patience k e → badCount L j ≠ patience := by
  intro k
  induction k with
  | zero => intro e h; exact absurd h (by simp [didBreak])
  | succ k ih =>
      intro e h
      simp only [didBreak, true_and] at h
      simp only [runLen, true_and]
      by_cases hc : patience = badCount L (e + 1)
      · rw [if_pos hc]
        exact ⟨hc.symm, fun j h1 h2 => by omega⟩
      · rw [if_neg hc]
        rw [if_neg hc] at h
        obtain ⟨h1, h2⟩ := ih (e + 1) h
        have hco : e + (1 + runLen L true patience k (e + 1)) =
            (e + 1) + runLen L true patience k (e + 1) := by omega
        rw [hco]
        refine ⟨h1, fun j hj1 hj2 => ?_⟩
        by_cases hj : j = e + 1
        · subst hj; exact fun hp => hc hp.symm
        · exact h2 j (by omega) hj2

theorem runLen_pos (L : Nat → ℚ) (es : Bool) (patience : Nat) (k e : Nat) (hk : 1 ≤ k) :
    1 ≤ runLen L es patience k e := by
  obtain ⟨k', rfl⟩ : ∃ k', k = k' + 1 := ⟨k - 1, by omega⟩
  simp only [runLen]
  split <;> omega

theorem runLen_le (L : Nat → ℚ) (es : Bool) (patience : Nat) :
    ∀ (k e : Nat), runLen L es patience k e ≤ k := by
  intro k
  induction k with
  | zero => intro e; simp [runLen]
  | succ k ih =>
      intro e
      simp only [runLen]
      split
      · omega
      · have := ih (e + 1); omega

theorem bestIdx_lt (L : Nat → ℚ) : ∀ e, 1 ≤ e → bestIdx L e < e := by
  intro e
  induction e with
  | zero => omega
  | succ e ih =>
      intro _
      simp only [bestIdx]
      split
      · omega
      · rcases Nat.eq_zero_or_pos e with h | h
        · subst h; simp [bestIdx]
        · have := ih h; omega

theorem runMin_le (L : Nat → ℚ) : ∀ e j, j < e → runMin L e ≤ (L j : WithTop ℚ) := by
  intro e
  induction e with
  | zero => intro j h; exact absurd h (Nat.not_lt_zero j)
  | succ e ih =>
      intro j hj
      simp only [runMin]
      rcases Nat.lt_or_ge j e with h | h
      · exact le_trans (min_le_left _ _) (ih j h)
      · have hje : j = e := by omega
        subst hje
        exact min_le_right _ _

theorem runMin_eq_bestIdx (L : Nat → ℚ) :
    ∀ e, 1 ≤ e → runMin L e = (L (bestIdx L e) : WithTop ℚ) := by
  intro e
  induction e with
  | zero => omega
  | succ e ih =>
      intro _
      by_cases h : improvedAt L e = true
      · rw [runMin_succ_improved L e h]
        simp only [bestIdx]
        rw [if_pos h]
      · have hf : improvedAt L e = false := eq_false_of_ne_true h
        rcases Nat.eq_zero_or_pos e with h0 | h0
        · subst h0
          rw [improvedAt_zero] at hf
          exact absurd hf (by simp)
        · rw [runMin_succ_not_improved L e hf]
          simp only [bestIdx]
          rw [if_neg h]
          exact ih h0

/-- The loss at the recorded best epoch is minimal among all epochs run. -/
theorem bestIdx_min (L : Nat → ℚ) (e : Nat) (he : 1 ≤ e) :
    ∀ j, j < e → L (bestIdx L e) ≤ L j := by
  intro j hj
  have h1 := runMin_le L e j hj
  rw [runMin_eq_bestIdx L e he] at h1
  exact_mod_cast h1

theorem trainLoop_init {α : Type} (step : α → α) (valLoss : α → ℚ) (es : Bool)
    (patience epochs : Nat) (m0 : α) :
    Trainer.trainLoop step valLoss true es patience epochs (Trainer.initTState m0) =
      { mkState step valLoss m0 (runLen (lossSeq step valLoss m0) es patience epochs 0) with
        broke := didBreak (lossSeq step valLoss m0) es patience epochs 0 } := by
  rw [← mkState_zero step valLoss m0, trainLoop_val step valLoss es patience m0 epochs 0,
    Nat.zero_add]

/-- The early-termination criterion as the spec's claim C3 states it: after
epoch `e`, the last `patience` epochs all failed to improve on the best
loss seen so far (`patience` CONSECUTIVE non-improving epochs). -/
def consecutiveBad (L : Nat → ℚ) (patience e : Nat) : Bool :=
  decide (patience ≤ e) &&
    (List.range patience).all (fun i => !(improvedAt L (e - 1 - i)))

/-- C3, counterexample.  Validation losses 3, 5, 2, 4, 1 over 5 planned
epochs with `early_stopping = True` and `patience = 2`: the loop breaks
after epoch 4 (`epoch_patience_count` reaches 2 cumulatively: epochs 2 and
4 are non-improving), although no epoch 1..5 is preceded by 2 consecutive
non-improving epochs — epoch 3 improves in between — so the claim's
criterion never holds, yet the loop terminates early. -/
theorem C3_counterexample :
    (Trainer.trainLoop Nat.succ (fun m => [(3 : ℚ), 5, 2, 4, 1].getD (m - 1) 0)
        true true 2 5 (Trainer.initTState 0)).broke = true ∧
    (Trainer.trainLoop Nat.succ (fun m => [(3 : ℚ), 5, 2, 4, 1].getD (m - 1) 0)
        true true 2 5 (Trainer.initTState 0)).done = 4 ∧
    (List.range 5).all (fun e =>
      !(consecutiveBad
          (lossSeq Nat.succ (fun m => [(3 : ℚ), 5, 2, 4, 1].getD (m - 1) 0) 0)
          2 (e + 1))) = true := by
  decide

/-- C3, amended.  With no validation set, all `epochs` epochs run and the
loop never breaks, whatever `early_stopping` is.  With a validation set
and `early_stopping = True`, the loop terminates early exactly when the
CUMULATIVE number of non-improving epochs (not the number of consecutive
ones: the counter is decremented, not reset, on improvement) reaches
`patience` within the planned epochs; the loop then stops at the first
epoch where that happens. -/
theorem C3_early_stopping {α : Type} (step : α → α) (valLoss : α → ℚ)
    (es rb sm : Bool) (patience epochs nSamples batch_size : Nat)
    (g w : Int) (path : String) (m0 : α) :
    ((Trainer.train step valLoss false es rb sm patience epochs nSamples batch_size
        g w path m0).done = epochs ∧
     (Trainer.train step valLoss false es rb sm patience epochs nSamples batch_size
        g w path m0).broke = false) ∧
    ((Trainer.train step valLoss true true rb sm patience epochs nSamples batch_size
        g w path m0).broke = true ↔
      ∃ e, 1 ≤ e ∧ e ≤ epochs ∧ badCount (lossSeq step valLoss m0) e = patience) ∧
    ((Trainer.train step valLoss true true rb sm patience epochs nSamples batch_size
        g w path m0).broke = true →
      1 ≤ (Trainer.train step valLoss true true rb sm patience epochs nSamples batch_size
            g w path m0).done ∧
      (Trainer.train step valLoss true true rb sm patience epochs nSamples batch_size
            g w path m0).done ≤ epochs ∧
      badCount (lossSeq step valLoss m0)
        ((Trainer.train step valLoss true true rb sm patience epochs nSamples batch_size
            g w path m0).done) = patience ∧
      ∀ e, 1 ≤ e →
        e < (Trainer.train step valLoss true true rb sm patience epochs nSamples batch_size
              g w path m0).done →
        badCount (lossSeq step valLoss m0) e ≠ patience) := by
  refine ⟨⟨?_, ?_⟩, ?_, ?_⟩
  · simp only [Trainer.train]
    rw [trainLoop_noval]
    simp [Trainer.initTState]
  · simp only [Trainer.train]
    rw [trainLoop_noval]
    simp [Trainer.initTState]
  · simp only [Trainer.train]
    rw [trainLoop_init]
    show didBreak (lossSeq step valLoss m0) true patience epochs 0 = true ↔ _
    rw [didBreak_iff]
    constructor
    · rintro ⟨j, h1, h2, h3⟩
      exact ⟨j, by omega, by omega, h3⟩
    · rintro ⟨j, h1, h2, h3⟩
      exact ⟨j, by omega, by omega, h3⟩
  · simp only [Trainer.train]
    rw [trainLoop_init]
    show didBreak (lossSeq step valLoss m0) true patience epochs 0 = true → _
    intro hb
    obtain ⟨h1, h2⟩ := didBreak_first (lossSeq step valLoss m0) patience epochs 0 hb
    have hep : 1 ≤ epochs := by
      rcases epochs with _ | n
      · exact absurd hb (by simp [didBreak])
      · omega
    have hpos := runLen_pos (lossSeq step valLoss m0) true patience epochs 0 hep
    have hle := runLen_le (lossSeq step valLoss m0) true patience epochs 0
    show 1 ≤ (mkState step valLoss m0 _).done ∧ (mkState step valLoss m0 _).done ≤ epochs ∧
      badCount _ ((mkState step valLoss m0 _).done) = patience ∧ _
    simp only [mkState]
    rw [Nat.zero_add] at h1 h2
    exact ⟨hpos, hle, h1, fun e he1 he2 => h2 e (by omega) he2⟩

/-- C7: `Trainer.train` creates one scheduler configuration, from the
call's inputs alone and before the epoch loop (line 53 of `Utilities.py`),
passing `num_warmup_steps = warm_up` and `num_training_steps =
(len(dataLoader) // gradient_accumulation) * epochs` (with `//` the
floor division `Int.fdiv`). -/
theorem C7_scheduler {α : Type} (step : α → α) (valLoss : α → ℚ)
    (hasVal early_stopping return_best_model save_model : Bool)
    (patience epochs nSamples batch_size : Nat)
    (gradient_accumulation warm_up : Int) (save_path : String) (m0 : α) :
    (Trainer.train step valLoss hasVal early_stopping return_best_model save_model
        patience epochs nSamples batch_size gradient_accumulation warm_up save_path
        m0).sched =
      Trainer.get_scheduler
        ((Int.fdiv (Trainer.numBatches nSamples batch_size : Int) gradient_accumulation)
          * (epochs : Int)) warm_up ∧
    (Trainer.train step valLoss hasVal early_stopping return_best_model save_model
        patience epochs nSamples batch_size gradient_accumulation warm_up save_path
        m0).sched.num_warmup_steps = warm_up ∧
    (Trainer.train step valLoss hasVal early_stopping return_best_model save_model
        patience epochs nSamples batch_size gradient_accumulation warm_up save_path
        m0).sched.num_training_steps =
      (Int.fdiv (Trainer.numBatches nSamples batch_size : Int) gradient_accumulation)
        * (epochs : Int) :=
  ⟨rfl, rfl, rfl⟩

/-- C4: with a validation set and `return_best_model = True`, after
`Trainer.train` returns there is an epoch `N` (1-based, among the epochs
actually run) whose average validation loss is minimal over all epochs
run, such that `self.model` is the (deep-copied) snapshot of the model as
it was after epoch `N`, `loss_epoch = N`, and when `save_model = True`
that same snapshot is saved to `best_loss_model_epoch_N.bin`. -/
theorem C4_best_model {α : Type} (step : α → α) (valLoss : α → ℚ)
    (es sm : Bool) (patience epochs nSamples batch_size : Nat)
    (g w : Int) (path : String) (m0 : α) (h : 1 ≤ epochs) :
    ∃ N, 1 ≤ N ∧
      N ≤ (Trainer.train step valLoss true es true sm patience epochs nSamples
            batch_size g w path m0).done ∧
      (∀ e, 1 ≤ e →
        e ≤ (Trainer.train step valLoss true es true sm patience epochs nSamples
              batch_size g w path m0).done →
        lossSeq step valLoss m0 (N - 1) ≤ lossSeq step valLoss m0 (e - 1)) ∧
      (Trainer.train step valLoss true es true sm patience epochs nSamples
          batch_size g w path m0).model = some (step^[N] m0) ∧
      (Trainer.train step valLoss true es true sm patience epochs nSamples
          batch_size g w path m0).loss_epoch = N ∧
      (sm = true →
        (Trainer.train step valLoss true es true sm patience epochs nSamples
            batch_size g w path m0).saved =
          some (path ++ "/best_loss_model_epoch_" ++ toString N ++ ".bin",
            some (step^[N] m0))) := by
  have hpos := runLen_pos (lossSeq step valLoss m0) es patience epochs 0 h
  have hne : runLen (lossSeq step valLoss m0) es patience epochs 0 ≠ 0 := by omega
  have hlt := bestIdx_lt (lossSeq step valLoss m0)
    (runLen (lossSeq step valLoss m0) es patience epochs 0) hpos
  have hmin := bestIdx_min (lossSeq step valLoss m0)
    (runLen (lossSeq step valLoss m0) es patience epochs 0) hpos
  refine ⟨bestIdx (lossSeq step valLoss m0)
      (runLen (lossSeq step valLoss m0) es patience epochs 0) + 1, by omega, ?_, ?_, ?_, ?_, ?_⟩
  · simp only [Trainer.train, trainLoop_init, mkState]
    omega
  · simp only [Trainer.train, trainLoop_init, mkState]
    intro e he1 he2
    have hsub : bestIdx (lossSeq step valLoss m0)
        (runLen (lossSeq step valLoss m0) es patience epochs 0) + 1 - 1 =
        bestIdx (lossSeq step valLoss m0)
          (runLen (lossSeq step valLoss m0) es patience epochs 0) := by omega
    rw [hsub]
    exact hmin (e - 1) (by omega)
  · simp only [Trainer.train, trainLoop_init, mkState]
    simp [hne]
  · simp only [Trainer.train, trainLoop_init, mkState]
    simp [hne]
  · intro hsm
    simp only [Trainer.train, trainLoop_init, mkState]
    simp [hne, hsm]

/-- Witness for `C4_best_model`: 3 epochs with validation losses 3, 5, 2. -/
theorem C4_best_model_witness :
    ∃ N, 1 ≤ N ∧
      N ≤ (Trainer.train Nat.succ (fun m => [(3 : ℚ), 5, 2, 4, 1].getD (m - 1) 0)
            true false true true 1 3 10 4 8 155 "out" 0).done ∧
      (∀ e, 1 ≤ e →
        e ≤ (Trainer.train Nat.succ (fun m => [(3 : ℚ), 5, 2, 4, 1].getD (m - 1) 0)
              true false true true 1 3 10 4 8 155 "out" 0).done →
        lossSeq Nat.succ (fun m => [(3 : ℚ), 5, 2, 4, 1].getD (m - 1) 0) 0 (N - 1) ≤
          lossSeq Nat.succ (fun m => [(3 : ℚ), 5, 2, 4, 1].getD (m - 1) 0) 0 (e - 1)) ∧
      (Trainer.train Nat.succ (fun m => [(3 : ℚ), 5, 2, 4, 1].getD (m - 1) 0)
          true false true true 1 3 10 4 8 155 "out" 0).model = some (Nat.succ^[N] 0) ∧
      (Trainer.train Nat.succ (fun m => [(3 : ℚ), 5, 2, 4, 1].getD (m - 1) 0)
          true false true true 1 3 10 4 8 155 "out" 0).loss_epoch = N ∧
      (true = true →
        (Trainer.train Nat.succ (fun m => [(3 : ℚ), 5, 2, 4, 1].getD (m - 1) 0)
            true false true true 1 3 10 4 8 155 "out" 0).saved =
          some ("out" ++ "/best_loss_model_epoch_" ++ toString N ++ ".bin",
            some (Nat.succ^[N] 0))) :=
  C4_best_model Nat.succ (fun m => [(3 : ℚ), 5, 2, 4, 1].getD (m - 1) 0)
    false true 1 3 10 4 8 155 "out" 0 (by norm_num)

/-! ### `Trainer.accuracy` (`Utilities.py`, lines 213-224)

Label matrices are lists of rows of natural numbers (the arrays that reach
`accuracy` hold 0/1 integers: the labels and `(output >= thres).astype(int)`).
`np.where(row)[0]` is the set of positions with a nonzero entry. -/

/-- `set(np.where(row)[0])`: the positions of the nonzero entries of a row
(lines 217-218 of `Utilities.py`). -/
def npWhere (row : List Nat) : Finset Nat :=
  (Finset.range row.length).filter (fun j => row.getD j 0 ≠ 0)

/-- The per-row score of `Trainer.accuracy` (lines 217-223): 1 when both
index sets are empty, else `len(intersection) / len(union)`. -/
def Trainer.accuracyRow (t p : List Nat) : ℚ :=
  let set_true := npWhere t
  let set_pred := npWhere p
  if set_true.card = 0 ∧ set_pred.card = 0 then 1
  else ((set_true ∩ set_pred).card : ℚ) / ((set_true ∪ set_pred).card : ℚ)

/-- `Trainer.accuracy` (lines 213-224): the `np.mean` of the per-row
scores over the rows of `y_true` (row `i` of `y_pred` is paired with row
`i` of `y_true`). -/
def Trainer.accuracy (y_true y_pred : List (List Nat)) : ℚ :=
  let acc_list := (List.range y_true.length).map
    (fun i => Trainer.accuracyRow (y_true.getD i []) (y_pred.getD i []))
  acc_list.sum / (acc_list.length : ℚ)

/-- The set of indices set (= 1) in a binary row, as the spec's claim C9
phrases it. -/
def labelSet (row : List Nat) : Finset Nat :=
  (Finset.range row.length).filter (fun j => row.getD j 0 = 1)

/-- The Jaccard index of two finite sets, with the convention that two
empty sets have Jaccard index 1. -/
def jaccardIndex (s t : Finset Nat) : ℚ :=
  if s = ∅ ∧ t = ∅ then 1 else ((s ∩ t).card : ℚ) / ((s ∪ t).card : ℚ)

theorem npWhere_eq_labelSet (row : List Nat) (hbin : ∀ x ∈ row, x ≤ 1) :
    npWhere row = labelSet row := by
  unfold npWhere labelSet
  refine Finset.filter_congr (fun j hj => ?_)
  rw [Finset.mem_range] at hj
  have hmem : row.getD j 0 ∈ row := by
    rw [List.getD_eq_getElem row 0 hj]
    exact List.getElem_mem hj
  have := hbin _ hmem
  omega

theorem accuracyRow_eq_jaccard (t p : List Nat) :
    Trainer.accuracyRow t p = jaccardIndex (npWhere t) (npWhere p) := by
  unfold Trainer.accuracyRow jaccardIndex
  simp only [Finset.card_eq_zero]

theorem accuracyRow_nonneg (t p : List Nat) : 0 ≤ Trainer.accuracyRow t p := by
  unfold Trainer.accuracyRow
  dsimp only
  split
  · norm_num
  · positivity

theorem accuracyRow_le_one (t p : List Nat) : Trainer.accuracyRow t p ≤ 1 := by
  unfold Trainer.accuracyRow
  dsimp only
  split
  · exact le_refl 1
  · rename_i hcond
    have hunion : (npWhere t ∪ npWhere p).card ≠ 0 := by
      intro h0
      rw [Finset.card_eq_zero, Finset.union_eq_empty] at h0
      exact hcond ⟨by rw [h0.1]; simp, by rw [h0.2]; simp⟩
    have hpos : (0 : ℚ) < ((npWhere t ∪ npWhere p).card : ℚ) := by
      exact_mod_cast Nat.pos_of_ne_zero hunion
    rw [div_le_one hpos]
    exact_mod_cast Finset.card_le_card (Finset.inter_subset_union)

/-- C9: for equal-shaped binary label matrices with at least one row,
`Trainer.accuracy` is the mean over rows of the Jaccard index of the sets
of indices set in `y_true` and `y_pred` (both-empty rows scoring 1), and
the result lies in `[0, 1]`. -/
theorem C9_accuracy_mean_jaccard (yt yp : List (List Nat))
    (hlen : yt.length = yp.length) (h1 : 1 ≤ yt.length)
    (hbin : ∀ row ∈ yt ++ yp, ∀ x ∈ row, x ≤ 1) :
    Trainer.accuracy yt yp =
      ((List.range yt.length).map
        (fun i => jaccardIndex (labelSet (yt.getD i [])) (labelSet (yp.getD i [])))).sum /
        (yt.length : ℚ) ∧
    0 ≤ Trainer.accuracy yt yp ∧ Trainer.accuracy yt yp ≤ 1 := by
  have hrow : ∀ i ∈ List.range yt.length,
      Trainer.accuracyRow (yt.getD i []) (yp.getD i []) =
        jaccardIndex (labelSet (yt.getD i [])) (labelSet (yp.getD i [])) := by
    intro i hi
    rw [List.mem_range] at hi
    have hbt : ∀ x ∈ yt.getD i [], x ≤ 1 := by
      intro x hx
      refine hbin _ ?_ x hx
      rw [List.mem_append]
      left
      rw [List.getD_eq_getElem yt [] hi]
      exact List.getElem_mem hi
    have hbp : ∀ x ∈ yp.getD i [], x ≤ 1 := by
      intro x hx
      refine hbin _ ?_ x hx
      rw [List.mem_append]
      right
      rw [List.getD_eq_getElem yp [] (hlen ▸ hi)]
      exact List.getElem_mem (hlen ▸ hi)
    rw [accuracyRow_eq_jaccard, npWhere_eq_labelSet _ hbt, npWhere_eq_labelSet _ hbp]
  have hcast : (0 : ℚ) < (yt.length : ℚ) := by exact_mod_cast h1
  refine ⟨?_, ?_, ?_⟩
  · unfold Trainer.accuracy
    dsimp only
    rw [List.map_congr_left hrow]
    simp
  · unfold Trainer.accuracy
    dsimp only
    refine div_nonneg (List.sum_nonneg ?_) (by positivity)
    intro x hx
    rw [List.mem_map] at hx
    obtain ⟨i, _, rfl⟩ := hx
    exact accuracyRow_nonneg _ _
  · unfold Trainer.accuracy
    dsimp only
    have hlen' : ((List.range yt.length).map
        (fun i => Trainer.accuracyRow (yt.getD i []) (yp.getD i []))).length = yt.length := by
      simp
    rw [hlen']
    rw [div_le_one hcast]
    have hsum := List.sum_le_card_nsmul
      ((List.range yt.length).map
        (fun i => Trainer.accuracyRow (yt.getD i []) (yp.getD i []))) 1 ?_
    · rw [hlen'] at hsum
      simpa using hsum
    · intro x hx
      rw [List.mem_map] at hx
      obtain ⟨i, _, rfl⟩ := hx
      exact accuracyRow_le_one _ _

/-- Witness for `C9_accuracy_mean_jaccard` on the 2×2 matrices
`[[1,0],[0,0]]`, `[[1,1],[0,0]]`. -/
theorem C9_accuracy_mean_jaccard_witness :
    Trainer.accuracy [[1, 0], [0, 0]] [[1, 1], [0, 0]] =
      ((List.range ([[1, 0], [0, 0]] : List (List Nat)).length).map
        (fun i => jaccardIndex (labelSet (([[1, 0], [0, 0]] : List (List Nat)).getD i []))
          (labelSet (([[1, 1], [0, 0]] : List (List Nat)).getD i [])))).sum /
        ((([[1, 0], [0, 0]] : List (List Nat)).length : ℚ)) ∧
    0 ≤ Trainer.accuracy [[1, 0], [0, 0]] [[1, 1], [0, 0]] ∧
    Trainer.accuracy [[1, 0], [0, 0]] [[1, 1], [0, 0]] ≤ 1 :=
  C9_accuracy_mean_jaccard [[1, 0], [0, 0]] [[1, 1], [0, 0]]
    (by decide) (by decide) (by decide)

/-- Modelled from the imported metrics library, for the refinement
comparison of claim C8: `sklearn.metrics.jaccard_score(y_true, y_pred,
average='samples')` with its default `zero_division`, i.e. the mean over
samples of `|intersection| / |union|` of the positive-label index sets,
where a sample whose union is empty scores 0. -/
def jaccard_score_samples (y_true y_pred : List (List Nat)) : ℚ :=
  let scores := (List.range y_true.length).map
    (fun i =>
      let s := npWhere (y_true.getD i [])
      let t := npWhere (y_pred.getD i [])
      if (s ∪ t).card = 0 then 0 else ((s ∩ t).card : ℚ) / ((s ∪ t).card : ℚ))
  scores.sum / (scores.length : ℚ)

/-- C8, counterexample.  `Trainer.accuracy` is a scoring computation defined
by the repository itself (lines 213-224 of `Utilities.py`), and it does not
equal the imported metrics library's sample-averaged Jaccard score: on the
1×1 matrices `[[0]]`, `[[0]]` the repository's function returns 1 while the
library function returns 0. -/
theorem C8_counterexample :
    Trainer.accuracy [[0]] [[0]] = 1 ∧
    jaccard_score_samples [[0]] [[0]] = 0 ∧
    Trainer.accuracy [[0]] [[0]] ≠ jaccard_score_samples [[0]] [[0]] := by
  have h0 : npWhere [0] = ∅ := by decide
  refine ⟨?_, ?_, ?_⟩ <;>
    norm_num [Trainer.accuracy, Trainer.accuracyRow, jaccard_score_samples, h0,
      List.range_succ]

/-- C8, amended.  The f1, precision and recall metrics are imported library
calls, but `Trainer.accuracy` is the repository's own scoring computation;
it agrees with the imported library's sample-averaged Jaccard score
whenever every row pair has a non-empty label-set union, and differs (1
versus 0) exactly on rows whose two index sets are both empty. -/
theorem C8_accuracy_vs_library (yt yp : List (List Nat))
    (h : ∀ i, i < yt.length →
      (npWhere (yt.getD i []) ∪ npWhere (yp.getD i [])).card ≠ 0) :
    Trainer.accuracy yt yp = jaccard_score_samples yt yp := by
  unfold Trainer.accuracy jaccard_score_samples
  dsimp only
  have hmap : ∀ i ∈ List.range yt.length,
      Trainer.accuracyRow (yt.getD i []) (yp.getD i []) =
        (if ((npWhere (yt.getD i []) ∪ npWhere (yp.getD i [])).card = 0) then 0
         else (((npWhere (yt.getD i []) ∩ npWhere (yp.getD i [])).card : ℚ) /
           ((npWhere (yt.getD i []) ∪ npWhere (yp.getD i [])).card : ℚ))) := by
    intro i hi
    rw [List.mem_range] at hi
    have hu := h i hi
    rw [if_neg hu]
    unfold Trainer.accuracyRow
    dsimp only
    rw [if_neg]
    intro hcon
    apply hu
    simp only [Finset.card_eq_zero] at hcon ⊢
    rw [hcon.1, hcon.2]
    simp
  rw [List.map_congr_left hmap]

/-- Witness for `C8_accuracy_vs_library` on `[[1]]`, `[[1]]`. -/
theorem C8_accuracy_vs_library_witness :
    Trainer.accuracy [[1]] [[1]] = jaccard_score_samples [[1]] [[1]] :=
  C8_accuracy_vs_library [[1]] [[1]] (by decide)

/-! ### `KFoldCrossVal` (`Utilities.py`, lines 227-278) -/

/-- `np.random.seed(RANDOM_STATE)` seeds numpy's global RNG as a side
effect and returns Python `None`; line 231 of `Utilities.py` stores that
return value in `self.random_state`. -/
def numpy_random_seed (RANDOM_STATE : Int) : Option Int := none

structure KFoldCrossVal (α : Type) where
  nfolds : Nat
  trainer : α
  random_state : Option Int

/-- `KFoldCrossVal.__init__` (`Utilities.py`, lines 228-231). -/
def KFoldCrossVal.init {α : Type} (nfolds : Nat) (trainer : α) (RANDOM_STATE : Int) :
    KFoldCrossVal α :=
  { nfolds := nfolds, trainer := trainer,
    random_state := numpy_random_seed RANDOM_STATE }

/-- The constructor arguments of the `sklearn` `KFold` splitter built on
line 236 of `Utilities.py`. -/
structure KFoldConfig where
  n_splits : Nat
  random_state : Option Int
  shuffle : Bool

/-- `KFold(n_splits=self.nfolds, random_state=self.random_state,
shuffle=True)` as called in `KFoldCrossVal.train` (line 236). -/
def KFoldCrossVal.kfoldConfig {α : Type} (self : KFoldCrossVal α) : KFoldConfig :=
  { n_splits := self.nfolds, random_state := self.random_state, shuffle := true }

/-- The constructor arguments of the `ShuffleSplit` splitter built on
line 245 of `Utilities.py`. -/
structure ShuffleSplitConfig where
  n_splits : Nat
  test_size : ℚ
  random_state : Option Int

/-- `ShuffleSplit(n_splits=1, test_size=0.1,
random_state=self.random_state)` as called in `KFoldCrossVal.train`
(line 245). -/
def KFoldCrossVal.shuffleSplitConfig {α : Type} (self : KFoldCrossVal α) :
    ShuffleSplitConfig :=
  { n_splits := 1, test_size := 1 / 10, random_state := self.random_state }

/-- C6: `KFoldCrossVal.__init__` stores `np.random.seed(RANDOM_STATE)`,
i.e. `None`, in `self.random_state`, so both splitters inside
`KFoldCrossVal.train` are constructed with `random_state=None`, and the
constructed object — hence every splitter configuration derived from it —
is identical for any two values of `RANDOM_STATE`. -/
theorem C6_random_state_none {α : Type} (nfolds : Nat) (trainer : α)
    (RANDOM_STATE : Int) :
    (KFoldCrossVal.init nfolds trainer RANDOM_STATE).random_state = none ∧
    (KFoldCrossVal.init nfolds trainer RANDOM_STATE).kfoldConfig.random_state = none ∧
    (KFoldCrossVal.init nfolds trainer RANDOM_STATE).shuffleSplitConfig.random_state
      = none ∧
    ∀ RANDOM_STATE2 : Int,
      KFoldCrossVal.init nfolds trainer RANDOM_STATE =
        KFoldCrossVal.init (α := α) nfolds trainer RANDOM_STATE2 :=
  ⟨rfl, rfl, rfl, fun _ => rfl⟩

/-- Modelled from `sklearn.model_selection.KFold._iter_test_indices`: the
documented fold sizes over `n` samples with `k` splits — the first `n % k`
folds get `n // k + 1` test indices, the remaining ones `n // k`. -/
def foldSizes (n k : Nat) : List Nat :=
  (List.range k).map (fun i => if i < n % k then n / k + 1 else n / k)

/-- Splits a list into consecutive chunks of the given sizes. -/
def chunks : List Nat → List Nat → List (List Nat)
  | [], _ => []
  | s :: rest, l => l.take s :: chunks rest (l.drop s)

/-- The `nfolds` test-index lists produced by `k_fold.split(X=X)` on
line 240 of `Utilities.py`: consecutive chunks (of the documented sizes)
of the shuffled index permutation `perm`; since `shuffle=True` and
`random_state=None`, `perm` is an arbitrary permutation of `range n`. -/
def kfoldTestIndices (perm : List Nat) (n k : Nat) : List (List Nat) :=
  chunks (foldSizes n k) perm

/-- The train indices `k_fold.split` yields for a fold: the complement of
the fold's test indices among `range n`, in increasing order. -/
def kfoldTrainIndices (n : Nat) (testIdx : List Nat) : List Nat :=
  (List.range n).filter (fun x => decide (x ∉ testIdx))

theorem chunks_length : ∀ (sizes l : List Nat), (chunks sizes l).length = sizes.length := by
  intro sizes
  induction sizes with
  | nil => intro l; rfl
  | cons s rest ih => intro l; simp [chunks, ih]

theorem chunks_flatten : ∀ (sizes l : List Nat),
    (chunks sizes l).flatten = l.take sizes.sum := by
  intro sizes
  induction sizes with
  | nil => intro l; simp [chunks]
  | cons s rest ih =>
      intro l
      simp only [chunks, List.flatten_cons, List.sum_cons]
      rw [ih (l.drop s), List.take_add]

theorem sizes_sum_aux (q : Nat) : ∀ (k m : Nat),
    ((List.range k).map (fun i => if i < m then q + 1 else q)).sum = k * q + min m k := by
  intro k
  induction k with
  | zero => intro m; simp
  | succ k ih =>
      intro m
      rw [List.range_succ, List.map_append, List.sum_append]
      simp only [List.map_cons, List.map_nil, List.sum_cons, List.sum_nil]
      rw [ih m]
      by_cases h : k < m
      · rw [if_pos h]
        have h1 : min m k = k := by omega
        have h2 : min m (k + 1) = k + 1 := by omega
        rw [h1, h2, Nat.succ_mul]
        omega
      · rw [if_neg h]
        have h1 : min m k = m := by omega
        have h2 : min m (k + 1) = m := by omega
        rw [h1, h2, Nat.succ_mul]
        omega

theorem foldSizes_sum (n k : Nat) (hk : 1 ≤ k) : (foldSizes n k).sum = n := by
  unfold foldSizes
  rw [sizes_sum_aux]
  have h1 := Nat.div_add_mod n k
  have h2 : n % k < k := Nat.mod_lt n hk
  omega

/-- C5: `KFoldCrossVal.train` performs `nfolds` folds whose held-out test
index lists are pairwise disjoint and together are exactly the `n` indices
of `X` (each exactly once), so the combined prediction/label matrices
(after the dummy row is dropped) have exactly `n` rows; and the train
indices of each fold are precisely the indices outside that fold's test
list, so the model of a fold is trained only on indices outside its test
set. -/
theorem C5_kfold_partition (n k : Nat) (perm : List Nat) (hk : 1 ≤ k) (hkn : k ≤ n)
    (hperm : perm.Perm (List.range n)) :
    (kfoldTestIndices perm n k).length = k ∧
    (kfoldTestIndices perm n k).flatten.Perm (List.range n) ∧
    (kfoldTestIndices perm n k).flatten.length = n ∧
    (∀ i j, i < k → j < k → i ≠ j → ∀ x,
      x ∈ (kfoldTestIndices perm n k).getD i [] →
      x ∉ (kfoldTestIndices perm n k).getD j []) ∧
    (∀ i x, x ∈ kfoldTrainIndices n ((kfoldTestIndices perm n k).getD i []) →
      x ∉ (kfoldTestIndices perm n k).getD i []) ∧
    (∀ i x, x < n → x ∉ (kfoldTestIndices perm n k).getD i [] →
      x ∈ kfoldTrainIndices n ((kfoldTestIndices perm n k).getD i [])) := by
  have hlenp : perm.length = n := by
    have := hperm.length_eq
    simpa using this
  have hflat : (kfoldTestIndices perm n k).flatten = perm := by
    unfold kfoldTestIndices
    rw [chunks_flatten, foldSizes_sum n k hk, ← hlenp, List.take_length]
  have hlen : (kfoldTestIndices perm n k).length = k := by
    unfold kfoldTestIndices
    rw [chunks_length]
    simp [foldSizes]
  have hfp : (kfoldTestIndices perm n k).flatten.Perm (List.range n) := by
    rw [hflat]; exact hperm
  refine ⟨hlen, hfp, ?_, ?_, ?_, ?_⟩
  · rw [hflat, hlenp]
  · have hnd : (kfoldTestIndices perm n k).flatten.Nodup :=
      hfp.nodup_iff.mpr (List.nodup_range n)
    rw [List.nodup_flatten] at hnd
    have hpw := hnd.2
    rw [List.pairwise_iff_get] at hpw
    intro i j hi hj hne x hxi hxj
    have hi' : i < (kfoldTestIndices perm n k).length := by omega
    have hj' : j < (kfoldTestIndices perm n k).length := by omega
    rw [List.getD_eq_getElem _ _ hi'] at hxi
    rw [List.getD_eq_getElem _ _ hj'] at hxj
    rcases Nat.lt_or_ge i j with h | h
    · exact hpw ⟨i, hi'⟩ ⟨j, hj'⟩ h hxi hxj
    · have hji : j < i := by omega
      exact hpw ⟨j, hj'⟩ ⟨i, hi'⟩ hji hxj hxi
  · intro i x hx
    unfold kfoldTrainIndices at hx
    rw [List.mem_filter] at hx
    simpa using hx.2
  · intro i x hxn hx
    unfold kfoldTrainIndices
    rw [List.mem_filter]
    exact ⟨List.mem_range.mpr hxn, by simpa using hx⟩

/-- Witness for `C5_kfold_partition`: 5 samples, 2 folds, shuffled order
`[3, 0, 4, 1, 2]` (folds `[3, 0, 4]` and `[1, 2]`). -/
theorem C5_kfold_partition_witness :
    (kfoldTestIndices [3, 0, 4, 1, 2] 5 2).length = 2 ∧
    (kfoldTestIndices [3, 0, 4, 1, 2] 5 2).flatten.Perm (List.range 5) ∧
    (kfoldTestIndices [3, 0, 4, 1, 2] 5 2).flatten.length = 5 ∧
    (∀ i j, i < 2 → j < 2 → i ≠ j → ∀ x,
      x ∈ (kfoldTestIndices [3, 0, 4, 1, 2] 5 2).getD i [] →
      x ∉ (kfoldTestIndices [3, 0, 4, 1, 2] 5 2).getD j []) ∧
    (∀ i x, x ∈ kfoldTrainIndices 5 ((kfoldTestIndices [3, 0, 4, 1, 2] 5 2).getD i []) →
      x ∉ (kfoldTestIndices [3, 0, 4, 1, 2] 5 2).getD i []) ∧
    (∀ i x, x < 5 → x ∉ (kfoldTestIndices [3, 0, 4, 1, 2] 5 2).getD i [] →
      x ∈ kfoldTrainIndices 5 ((kfoldTestIndices [3, 0, 4, 1, 2] 5 2).getD i [])) :=
  C5_kfold_partition 5 2 [3, 0, 4, 1, 2] (by norm_num) (by norm_num) (by decide)

/-! ### `baseline_coder.py`: the baseline entry point

`main` receives the four source arguments as `Option String` (`none` is
Python `None`); `pyTruthy` is Python truthiness for an optional string
(`None` and `""` are falsy).  `main` runs at most one of
`train_test_baseline`, `train_baseline`, `test_baseline_filepath`,
`test_baseline_text`, chosen by the `if/elif` chain on lines 31-62. -/

inductive BaselineAction where
  | train_test_baseline
  | train_baseline
  | test_baseline_filepath
  | test_baseline_text
deriving DecidableEq

def pyTruthy (s : Option String) : Bool :=
  match s with
  | none => false
  | some t => decide (t ≠ "")

/-- The dispatch of `main` in `baseline_coder.py` (lines 31-62): the
`if/elif` chain calls the function of the first truthy argument, in the
order `train_and_test_data`, `train_data`, `test_data`, `test_text`, or
nothing when none is truthy. -/
def baseline_main (train_and_test_data train_data test_data test_text : Option String) :
    Option BaselineAction :=
  if pyTruthy train_and_test_data then some BaselineAction.train_test_baseline
  else if pyTruthy train_data then some BaselineAction.train_baseline
  else if pyTruthy test_data then some BaselineAction.test_baseline_filepath
  else if pyTruthy test_text then some BaselineAction.test_baseline_text
  else none

/-- Modelled from `argparse`: a mutually exclusive group (at most one
member may be supplied) that is `required` (at least one must be
supplied), as built on line 81 of `baseline_coder.py`; an argument is
supplied when it is not `None`. -/
def argparse_required_mutually_exclusive (args : List (Option String)) : Bool :=
  decide (args.countP Option.isSome ≤ 1) && args.any Option.isSome

/-- C10: `main` calls at most one of the four pipeline functions — the one
belonging to the first non-empty (truthy) argument in the fixed priority
order `train_and_test_data, train_data, test_data, test_text` — and the
command-line parser accepts exactly when exactly one of the four mutually
exclusive source arguments is supplied. -/
theorem C10_baseline_dispatch (a b c d : Option String) :
    baseline_main a b c d =
      (([(a, BaselineAction.train_test_baseline),
         (b, BaselineAction.train_baseline),
         (c, BaselineAction.test_baseline_filepath),
         (d, BaselineAction.test_baseline_text)].find?
          (fun p => pyTruthy p.1)).map Prod.snd) ∧
    (argparse_required_mutually_exclusive [a, b, c, d] = true ↔
      [a, b, c, d].countP Option.isSome = 1) := by
  constructor
  · simp only [baseline_main, List.find?]
    by_cases ha : pyTruthy a <;> by_cases hb : pyTruthy b <;>
      by_cases hc : pyTruthy c <;> by_cases hd : pyTruthy d <;>
      simp [ha, hb, hc, hd]
  · unfold argparse_required_mutually_exclusive
    rw [Bool.and_eq_true, decide_eq_true_eq, List.any_eq_true]
    constructor
    · rintro ⟨h1, x, hx, hsome⟩
      have hpos : 0 < [a, b, c, d].countP Option.isSome :=
        List.countP_pos_iff.mpr ⟨x, hx, hsome⟩
      omega
    · intro h
      refine ⟨by omega, ?_⟩
      have hpos : 0 < [a, b, c, d].countP Option.isSome := by omega
      rw [List.countP_pos_iff] at hpos
      obtain ⟨x, hx, hsome⟩ := hpos
      exact ⟨x, hx, hsome⟩

end ICD
